import Mathlib

/-!
Verification of the Trading Dashboard analytics engine.

This file is a shallow embedding, in Lean 4, of the pure computations of the
trading-journal dashboard: the checklist-adherence scorer, the adherence-band
classifier, the trade-notes envelope parser, the weekly/daily time bucketer,
the risk-reward calculator, the mood scorer, and the cohort correlator.

Conventions of the embedding:
- JavaScript numbers are modelled as rationals (`ℚ`); all the arithmetic the
  claims are about is exact on the inputs considered.
- JavaScript objects used as finite maps are modelled as association lists in
  insertion order (string keys such as item ids and ISO dates are not array
  indices, so JS preserves insertion order for them).
- `Array.prototype.sort` with a numeric comparator is modelled by the stable
  `List.mergeSort` with the corresponding boolean relation.
- Calendar dates are modelled as day numbers (days since 1970-01-01, which
  was a Thursday), with local time equal to UTC.
- Fallible JavaScript steps (`JSON.parse`) are modelled by passing the parse
  result explicitly as an `Option` of a JSON value type.
-/

set_option linter.unusedVariables false

namespace TradingDashboard

/-! ### Adherence scorer (client/src/hooks/use-checklist.ts) -/

/-- A checklist-adherence map: a finite map from checklist-item id to boolean,
modelled as an association list in insertion order
(interface `ChecklistAdherence` in use-checklist.ts). -/
abbrev ChecklistAdherence := List (String × Bool)

/-- `calculateAdherenceScore` from use-checklist.ts:
`Object.values(checklist)` is the list of map values in insertion order;
empty map scores 0, otherwise `followed / total * 100`. -/
def calculateAdherenceScore (checklist : ChecklistAdherence) : ℚ :=
  let items := checklist.map Prod.snd
  if items.length = 0 then 0
  else (((items.filter (fun b => b)).length : ℚ) / (items.length : ℚ)) * 100

/-- `getAdherenceLevel` from use-checklist.ts. -/
def getAdherenceLevel (score : ℚ) : String :=
  if score ≥ 90 then "Excellent"
  else if score ≥ 75 then "Good"
  else if score ≥ 50 then "Fair"
  else if score ≥ 25 then "Poor"
  else "Very Poor"

/-! ### Trade-notes envelope parser (client/src/hooks/use-checklist.ts) -/

/-- JSON values, as produced by a successful `JSON.parse` (no `undefined`,
no `NaN`; object fields are the final key/value pairs in insertion order). -/
inductive Js where
  | null : Js
  | bool : Bool → Js
  | num : ℚ → Js
  | str : String → Js
  | arr : List Js → Js
  | obj : List (String × Js) → Js

/-- Property access `j["key"]` on a parsed JSON object: `none` models
`undefined` (absent key, or receiver not an object with that key). -/
def jsLookup (fields : List (String × Js)) (key : String) : Option Js :=
  (fields.find? (fun p => p.1 = key)).map Prod.snd

/-- JavaScript truthiness of a parsed JSON value:
`null`, `false`, `0` and `""` are falsy, everything else truthy. -/
def jsTruthy : Js → Bool
  | Js.null => false
  | Js.bool b => b
  | Js.num q => decide (q ≠ 0)
  | Js.str s => decide (s ≠ "")
  | Js.arr _ => true
  | Js.obj _ => true

/-- The JavaScript idiom `v || d` where `v` may also be `undefined`
(modelled as `none`). -/
def jsOrDefault (v : Option Js) (d : Js) : Js :=
  match v with
  | some x => if jsTruthy x then x else d
  | none => d

/-- Result record of `parseTradeNotes` (interface `TradeWithChecklist`):
`checklist = none` models an absent (`undefined`) field. At runtime the
fields hold whatever JSON values the parsed notes supplied, so they are
modelled as `Js` values rather than as already-typed maps. -/
structure TradeWithChecklist where
  checklist : Option Js
  userNotes : Js

/-- `parseTradeNotes` from use-checklist.ts. `notes = none` models a `null`
notes field; `parsed` is the result of `JSON.parse notes` (`none` when the
parse throws). The JS guard `parsed && typeof parsed === 'object' &&
'checklist' in parsed` holds exactly for a parsed object whose fields
contain the key `"checklist"`: `null` is falsy, primitives have a
non-object `typeof`, and a JSON array has no `checklist` property. The
function is total: no exception escapes. -/
def parseTradeNotes (notes : Option String) (parsed : Option Js) :
    TradeWithChecklist :=
  match notes with
  | none => ⟨none, Js.str ""⟩
  | some s =>
    if s = "" then ⟨none, Js.str ""⟩
    else
      match parsed with
      | some (Js.obj fields) =>
        if (jsLookup fields "checklist").isSome then
          ⟨some (jsOrDefault (jsLookup fields "checklist") (Js.obj [])),
            jsOrDefault (jsLookup fields "userNotes") (Js.str "")⟩
        else ⟨none, Js.str s⟩
      | _ => ⟨none, Js.str s⟩

/-! ### Grouping by key (the JS reduce-into-an-object idiom)

A JS `reduce` that accumulates per-key buckets in a plain object keyed by
non-index strings visits `Object.entries` in first-insertion order. It is
modelled by a fold that appends a new (key, group) pair on first sight of a
key and appends the element to its group otherwise. -/

/-- One step of the grouping reduce: append the element to its key's group
when the key was seen before, otherwise append a fresh (key, group) pair. -/
def groupStep {α κ : Type} [DecidableEq κ] (key : α → κ)
    (acc : List (κ × List α)) (x : α) : List (κ × List α) :=
  if acc.any (fun p => p.1 = key x) then
    acc.map (fun p => if p.1 = key x then (p.1, p.2 ++ [x]) else p)
  else acc ++ [(key x, [x])]

/-- Group a list by a key function, keeping keys in first-occurrence order
and each group's elements in input order. -/
def groupByKey {α κ : Type} [DecidableEq κ] (key : α → κ) (xs : List α) :
    List (κ × List α) :=
  xs.foldl (groupStep key) []

/-! ### Calendar dates

Dates are day numbers: days since 1970-01-01 (a Thursday), with local time
equal to UTC. `daysFromCivil`/`civilFromDays` convert between day numbers
and Gregorian (year, month, day) triples for the years 1970 onwards. -/

/-- Whether a Gregorian year is a leap year. -/
def isLeapYear (y : ℕ) : Bool := (y % 4 = 0 && !(y % 100 = 0)) || y % 400 = 0

/-- Number of days in a month of a given year (months are 1-based). -/
def daysInMonth (y m : ℕ) : ℕ :=
  if m = 2 then (if isLeapYear y then 29 else 28)
  else if m = 4 ∨ m = 6 ∨ m = 9 ∨ m = 11 then 30 else 31

/-- Number of days in a Gregorian year. -/
def daysInYear (y : ℕ) : ℕ := if isLeapYear y then 366 else 365

/-- Day number of the civil date `y-m-d` (for `y ≥ 1970`). -/
def daysFromCivil (y m d : ℕ) : ℕ :=
  ((List.range (y - 1970)).map (fun i => daysInYear (1970 + i))).sum
  + ((List.range (m - 1)).map (fun i => daysInMonth y (i + 1))).sum
  + (d - 1)

/-- Day of week of a day number, `0 = Sunday` (`getDay()` semantics;
1970-01-01 was a Thursday). -/
def dayOfWeek (n : ℕ) : ℕ := (n + 4) % 7

/-- Year of a day number, by scanning years from 1970 with the remaining
day count (fuel-bounded; 400 years of fuel cover all dates of interest). -/
def yearFromDays : ℕ → ℕ → ℕ → ℕ × ℕ
  | 0, y, rem => (y, rem)
  | fuel + 1, y, rem =>
    if rem ≥ daysInYear y then yearFromDays fuel (y + 1) (rem - daysInYear y)
    else (y, rem)

/-- Month of a day-of-year remainder, scanning months 1..12. -/
def monthFromDays : ℕ → ℕ → ℕ → ℕ → ℕ × ℕ
  | 0, _, m, rem => (m, rem)
  | fuel + 1, y, m, rem =>
    if rem ≥ daysInMonth y m then
      monthFromDays fuel y (m + 1) (rem - daysInMonth y m)
    else (m, rem)

/-- Civil date (year, month, day) of a day number (for years 1970..2369). -/
def civilFromDays (n : ℕ) : ℕ × ℕ × ℕ :=
  let yr := yearFromDays 400 1970 n
  let mr := monthFromDays 11 yr.1 1 yr.2
  (yr.1, mr.1, mr.2 + 1)

/-! ### Weekly trade-frequency bucketing (TradeFrequencyChart) -/

/-- The grouping key of TradeFrequencyChart:
`weekStart.setDate(date.getDate() - date.getDay())` — the most recent
Sunday on or before the trade date; the ISO key string of that Sunday is
identified with its day number. -/
def weekStartOf (n : ℕ) : ℕ := n - dayOfWeek n

/-- The display label `weekStart.toLocaleDateString("en-US", { month:
"short", day: "numeric" })`, e.g. `"Mar 3"`, identified with its
(month, day) pair: the year is not part of the label. -/
def weekLabel (n : ℕ) : ℕ × ℕ :=
  ((civilFromDays n).2.1, (civilFromDays n).2.2)

/-- A trade as read by TradeFrequencyChart: trade date (day number) and the
already-parsed numeric fields (`parseFloat(x?.toString() || "0")`). -/
structure FreqTrade where
  tradeDate : ℕ
  profitLoss : ℚ
  entryPrice : ℚ
  quantity : ℚ
deriving DecidableEq

/-- One weekly bucket of TradeFrequencyChart. `weekKey` is the key the
bucket is stored under in the accumulator object (the ISO date of the
week's Sunday); the JS bucket record itself keeps only the year-less
display label `week`. -/
structure WeekBucket where
  weekKey : ℕ
  week : ℕ × ℕ
  trades : ℕ
  totalVolume : ℚ
  pnlSum : ℚ
  avgPnL : ℚ

/-- The fresh bucket created on first sight of a week key. -/
def emptyBucket (k : ℕ) : WeekBucket := ⟨k, weekLabel k, 0, 0, 0, 0⟩

/-- One reduce step of TradeFrequencyChart on an existing bucket. -/
def addTradeToBucket (b : WeekBucket) (t : FreqTrade) : WeekBucket :=
  let pnl := t.profitLoss
  let volume := t.entryPrice * t.quantity
  { b with
    trades := b.trades + 1
    totalVolume := b.totalVolume + volume
    pnlSum := b.pnlSum + pnl
    avgPnL := (b.pnlSum + pnl) / ((b.trades + 1 : ℕ) : ℚ) }

/-- The `weeklyData` accumulator of TradeFrequencyChart: trades grouped by
week start; each bucket is the fold of its own trades in input order (the
JS reduce interleaves the per-key updates, with the same per-bucket
result). -/
def weeklyData (trades : List FreqTrade) : List WeekBucket :=
  (groupByKey (fun t => weekStartOf t.tradeDate) trades).map
    (fun p => p.2.foldl addTradeToBucket (emptyBucket p.1))

/-- The sort comparator of TradeFrequencyChart:
`new Date(a.week).getTime() - new Date(b.week).getTime()`. The label has no
year, so `new Date` parses it in the default year 2001 (V8) and the
comparator orders buckets by the (month, day) of the label alone. -/
def weekLabelLe (a b : WeekBucket) : Bool :=
  decide (a.week.1 < b.week.1 ∨ (a.week.1 = b.week.1 ∧ a.week.2 ≤ b.week.2))

/-- The `chartData` of TradeFrequencyChart: buckets sorted with the label
comparator, then `slice(-12)` (the last 12 entries). -/
def freqChartData (trades : List FreqTrade) : List WeekBucket :=
  let sorted := (weeklyData trades).mergeSort weekLabelLe
  sorted.drop (sorted.length - 12)

/-! ### Discipline analytics: P&L aggregation and cohort correlator
(ChecklistAdherenceChart, Discipline page) -/

/-- A checklist-item definition (interface `ChecklistItem` in
use-checklist.ts); `category` is `"pre-trade"` or `"post-trade"`. -/
structure ChecklistItem where
  id : String
  name : String
  category : String
  description : Option String
deriving DecidableEq

/-- A trade as consumed by the discipline analytics after
`parseTradeNotes`: its adherence map and its parsed profit/loss. -/
structure TradeC where
  checklist : ChecklistAdherence
  pnl : ℚ
deriving DecidableEq

/-- Map lookup `trade.checklist[itemId]`; `none` models an absent key. -/
def adherenceLookup (m : ChecklistAdherence) (itemId : String) :
    Option Bool :=
  (m.find? (fun p => p.1 = itemId)).map Prod.snd

/-- Modelled from the spec: `calculateTotalPnL` is defined in
`@/lib/calculations`, which is not among the provided sources (only its
call sites are). Spec §4.4 defines the total P&L of a list of trades as
the sum of their parsed profit/loss values, 0 for an empty list; on
records whose `pnl` is already parsed this is the plain sum. -/
def calculateTotalPnL (trades : List TradeC) : ℚ :=
  (trades.map TradeC.pnl).sum

/-- The guarded average-P&L used at every division site of the charts:
`trades.length > 0 ? calculateTotalPnL(trades) / trades.length : 0`. -/
def avgPnL (trades : List TradeC) : ℚ :=
  if trades.length > 0 then calculateTotalPnL trades / (trades.length : ℚ)
  else 0

/-- The guarded win rate of ChecklistAdherenceChart:
`trades.length > 0 ? (wins / trades.length) * 100 : 0`, a win being
`pnl > 0`. -/
def winRate (trades : List TradeC) : ℚ :=
  if trades.length > 0 then
    (((trades.filter (fun t => t.pnl > 0)).length : ℚ) /
      (trades.length : ℚ)) * 100
  else 0

/-- One row of the per-checklist-item impact analysis
(ChecklistAdherenceChart `itemAnalysis` and the Discipline page's Top
Impact Items). -/
structure ItemImpact where
  item : String
  category : String
  followedTrades : ℕ
  notFollowedTrades : ℕ
  followedPnL : ℚ
  notFollowedPnL : ℚ
  impact : ℚ
deriving DecidableEq

/-- The impact row of one checklist item: the cohorts are the trades with
`checklist[item.id] === true` and those with `=== false` (a trade whose
map lacks the key joins neither); per-cohort average P&L is the guarded
average, and `impact` is their difference. -/
def itemImpactOf (trades : List TradeC) (item : ChecklistItem) :
    ItemImpact :=
  let followed := trades.filter
    (fun t => adherenceLookup t.checklist item.id = some true)
  let notFollowed := trades.filter
    (fun t => adherenceLookup t.checklist item.id = some false)
  { item := item.name
    category := item.category
    followedTrades := followed.length
    notFollowedTrades := notFollowed.length
    followedPnL := avgPnL followed
    notFollowedPnL := avgPnL notFollowed
    impact := avgPnL followed - avgPnL notFollowed }

/-- `itemAnalysis`: one row per configured checklist item, excluding rows
with zero trades in both cohorts. -/
def itemAnalysis (items : List ChecklistItem) (trades : List TradeC) :
    List ItemImpact :=
  (items.map (itemImpactOf trades)).filter
    (fun r => r.followedTrades > 0 || r.notFollowedTrades > 0)

/-- The Top Impact Items ranking of the Discipline page: analysis rows
sorted by `|impact|` descending (`sort((a,b) => |b.impact| - |a.impact|)`,
a stable sort), truncated to the first 5. -/
def topImpactItems (items : List ChecklistItem) (trades : List TradeC) :
    List ItemImpact :=
  ((itemAnalysis items trades).mergeSort
    (fun a b => decide (|b.impact| ≤ |a.impact|))).take 5

/-! ### Risk-reward calculator (RiskRewardChart) -/

/-- A trade as read by RiskRewardChart: the three price fields are
optional; the spec's risk-reward analysis requires all three present. -/
structure RRTrade where
  entryPrice : Option ℚ
  exitPrice : Option ℚ
  stopLoss : Option ℚ
  pnl : ℚ
deriving DecidableEq

/-- One point of the risk-reward scatter data. -/
structure RRPoint where
  risk : ℚ
  reward : ℚ
  ratio : ℚ
  pnl : ℚ
deriving DecidableEq

/-- `riskRewardData` of RiskRewardChart: trades with entry, exit and stop
all present are mapped to `risk = |entry - stop|`, `reward = |exit -
entry|` and `ratio = reward / risk` when `risk > 0`, else `ratio = 0`;
trades missing any of the three are removed by the filter before the map
(`parseFloat(x?.toString() || "0")` is modelled by `Option.getD 0`, which
the filter guarantees never takes its default). -/
def riskRewardData (trades : List RRTrade) : List RRPoint :=
  (trades.filter (fun t =>
      t.entryPrice.isSome && t.exitPrice.isSome && t.stopLoss.isSome)).map
    (fun t =>
      let entryPrice := t.entryPrice.getD 0
      let exitPrice := t.exitPrice.getD 0
      let stopLoss := t.stopLoss.getD 0
      let risk := |entryPrice - stopLoss|
      let reward := |exitPrice - entryPrice|
      { risk := risk
        reward := reward
        ratio := if risk > 0 then reward / risk else 0
        pnl := t.pnl })

/-- `avgRiskReward` of RiskRewardChart: the guarded mean of the ratios
(`riskRewardData.length > 0 ? sum / length : 0`). -/
def avgRiskReward (pts : List RRPoint) : ℚ :=
  if pts.length > 0 then (pts.map RRPoint.ratio).sum / (pts.length : ℚ)
  else 0

/-! ### Mood scorer (psychology-mood-tracker.tsx) -/

/-- The fixed `EMOTION_SCORES` table. -/
def EMOTION_SCORES : List (String × ℚ) :=
  [("Confident", 5), ("Excited", 4), ("Disciplined", 4), ("Neutral", 3),
   ("Anxious", 2), ("Fearful", 1), ("Greedy", 1)]

/-- A trade as read by the mood tracker: date (day number), optional
emotion label, parsed P&L. -/
structure MoodTrade where
  tradeDate : ℕ
  emotion : Option String
  pnl : ℚ
deriving DecidableEq

/-- `EMOTION_SCORES[trade.emotion || "Neutral"] || 3`: a null or empty
label becomes `"Neutral"` first; a missed table lookup (`undefined`) falls
back to 3 through `|| 3`, which would also fire on a score of 0 — the
table's scores are all nonzero, so in fact it fires exactly on
unrecognized labels. -/
def emotionScore (emotion : Option String) : ℚ :=
  let e := match emotion with
    | none => "Neutral"
    | some s => if s = "" then "Neutral" else s
  match (EMOTION_SCORES.find? (fun p => p.1 = e)).map Prod.snd with
  | some q => if q ≠ 0 then q else 3
  | none => 3

/-- `getMoodLabel` from psychology-mood-tracker.tsx. -/
def getMoodLabel (score : ℚ) : String :=
  if score ≥ 4.5 then "Very Positive"
  else if score ≥ 3.5 then "Positive"
  else if score ≥ 2.5 then "Neutral"
  else if score ≥ 1.5 then "Negative"
  else "Very Negative"

/-- One point of the mood chart. -/
structure MoodDay where
  fullDate : ℕ
  moodScore : ℚ
  pnl : ℚ
  trades : ℕ
  moodLabel : String
deriving DecidableEq

/-- The mood-tracker pipeline `dailyMoodData`/`chartData`: trades grouped
by date (the per-day record collects emotion scores and P&Ls in input
order), each day mapped to the arithmetic mean of its scores and its
total P&L, sorted ascending by full date (stable) and cut to the last 30
entries (`slice(-30)`). -/
def moodChartData (trades : List MoodTrade) : List MoodDay :=
  let daily := (groupByKey (fun t => t.tradeDate) trades).map
    (fun p =>
      let avgMood := ((p.2.map (fun t => emotionScore t.emotion)).sum) /
        ((p.2.length : ℚ))
      { fullDate := p.1
        moodScore := avgMood
        pnl := (p.2.map MoodTrade.pnl).sum
        trades := p.2.length
        moodLabel := getMoodLabel avgMood })
  let sorted := daily.mergeSort (fun a b => decide (a.fullDate ≤ b.fullDate))
  sorted.drop (sorted.length - 30)

/-! ### Adherence-level cohort data (ChecklistAdherenceChart) -/

/-- `getAdherenceSortOrder` from checklist-adherence-chart.tsx: the
explicit rank table of the five bands. -/
def getAdherenceSortOrder (level : String) : ℕ :=
  if level = "Excellent" then 1
  else if level = "Good" then 2
  else if level = "Fair" then 3
  else if level = "Poor" then 4
  else if level = "Very Poor" then 5
  else 6

/-- The fixed display order of the adherence bands. -/
def ADHERENCE_ORDER : List String :=
  ["Excellent", "Good", "Fair", "Poor", "Very Poor"]

/-- The adherence level of a parsed trade: `getAdherenceLevel` of its
`calculateAdherenceScore` (a trade without checklist data scores 0). -/
def tradeAdherenceLevel (t : TradeC) : String :=
  getAdherenceLevel (calculateAdherenceScore t.checklist)

/-- One row of the adherence-level cohort chart. -/
structure AdherenceBand where
  level : String
  trades : ℕ
  totalPnL : ℚ
  winRate : ℚ
  avgPnL : ℚ
deriving DecidableEq

/-- The aggregate row computed for one (level, cohort) group of
ChecklistAdherenceChart. -/
def bandOf (p : String × List TradeC) : AdherenceBand :=
  { level := p.1
    trades := p.2.length
    totalPnL := calculateTotalPnL p.2
    winRate := winRate p.2
    avgPnL := avgPnL p.2 }

/-- `adherenceData` of ChecklistAdherenceChart: trades grouped by
adherence level (`Object.entries` order is first-insertion order), each
group mapped to its aggregate row, then sorted by the explicit rank table
(`sort((a,b) => order(a.level) - order(b.level))`, a stable sort). -/
def adherenceData (trades : List TradeC) : List AdherenceBand :=
  ((groupByKey tradeAdherenceLevel trades).map bandOf).mergeSort
    (fun a b =>
      decide (getAdherenceSortOrder a.level ≤ getAdherenceSortOrder b.level))

/-! ### Checklist-definition maintenance (use-checklist.ts) -/

/-- `deleteChecklistItem` from use-checklist.ts: drop the definition with
the given id; the trades' stored adherence maps are untouched. -/
def deleteChecklistItem (items : List ChecklistItem) (id : String) :
    List ChecklistItem :=
  items.filter (fun item => item.id ≠ id)

/-- A `Partial<ChecklistItem>` patch: a present field overrides the old
value in the spread `{ ...item, ...updates }`. -/
structure ChecklistItemPatch where
  id : Option String
  name : Option String
  category : Option String
  description : Option (Option String)
deriving DecidableEq

/-- `updateChecklistItem` from use-checklist.ts. -/
def updateChecklistItem (items : List ChecklistItem) (id : String)
    (updates : ChecklistItemPatch) : List ChecklistItem :=
  items.map (fun item =>
    if item.id = id then
      { id := updates.id.getD item.id
        name := updates.name.getD item.name
        category := updates.category.getD item.category
        description := updates.description.getD item.description }
    else item)

/-- The adherence score of a trade's map as the dashboards compute it: the
configured checklist-item definitions are in scope at every call site (the
charts read `checklistItems` from the hook alongside the score), but
`calculateAdherenceScore` reads only the trade's own stored map, so the
definitions parameter is unused — which is exactly what claim C10
asserts. -/
def scoreWithConfig (items : List ChecklistItem) (m : ChecklistAdherence) :
    ℚ :=
  calculateAdherenceScore m

end TradingDashboard

namespace TradingDashboard

/-! ### Helper lemmas about grouping -/

/-- Filtering a list extended by one element appends that element exactly
when it matches the key. -/
theorem filter_append_singleton {α κ : Type} [DecidableEq κ] (key : α → κ)
    (pre : List α) (d : κ) (t : α) :
    (pre ++ [t]).filter (fun x => key x = d) =
      pre.filter (fun x => key x = d) ++ (if key t = d then [t] else []) := by
  rw [List.filter_append]
  congr 1
  simp only [List.filter_cons, List.filter_nil]
  split_ifs with h1 h2 h3 <;> simp_all

/-- Main invariant of the grouping fold: starting from an accumulator that
groups a processed prefix `pre`, after folding the remaining `ts` every
pair holds exactly the matching elements of `pre ++ ts` in order, every
processed element's key has a group, and the keys are distinct. -/
theorem groupByKey_invariant {α κ : Type} [DecidableEq κ] (key : α → κ) :
    ∀ (ts : List α) (acc : List (κ × List α)) (pre : List α),
      (∀ p ∈ acc, p.2 = pre.filter (fun x => key x = p.1)) →
      (∀ x ∈ pre, acc.any (fun p => p.1 = key x) = true) →
      (acc.map Prod.fst).Nodup →
      (∀ p ∈ acc, ∃ x ∈ pre, key x = p.1) →
      (∀ p ∈ ts.foldl (groupStep key) acc,
          p.2 = (pre ++ ts).filter (fun x => key x = p.1)) ∧
      (∀ x ∈ pre ++ ts,
          (ts.foldl (groupStep key) acc).any (fun p => p.1 = key x) = true) ∧
      ((ts.foldl (groupStep key) acc).map Prod.fst).Nodup ∧
      (∀ p ∈ ts.foldl (groupStep key) acc, ∃ x ∈ pre ++ ts, key x = p.1) := by
  intro ts
  induction ts with
  | nil =>
    intro acc pre h1 h2 h3 h4
    simp only [List.foldl_nil, List.append_nil]
    exact ⟨h1, h2, h3, h4⟩
  | cons t ts ih =>
    intro acc pre h1 h2 h3 h4
    have hstep : (t :: ts).foldl (groupStep key) acc =
        ts.foldl (groupStep key) (groupStep key acc t) := rfl
    have happ : pre ++ t :: ts = (pre ++ [t]) ++ ts := by simp
    rw [hstep, happ]
    by_cases hhas : acc.any (fun p => p.1 = key t) = true
    · have hstep2 : groupStep key acc t =
          acc.map (fun p => if p.1 = key t then (p.1, p.2 ++ [t]) else p) := by
        simp [groupStep, hhas]
      rw [hstep2]
      apply ih
      · intro p hp
        obtain ⟨q, hq, rfl⟩ := List.mem_map.mp hp
        by_cases hk : q.1 = key t
        · simp only [hk, if_true]
          rw [filter_append_singleton, ← hk, if_pos rfl, h1 q hq, hk]
        · simp only [hk, if_false]
          rw [filter_append_singleton, if_neg (fun h => hk h.symm)]
          rw [List.append_nil]
          exact h1 q hq
      · intro x hx
        have hfst : ∀ q : κ × List α,
            ((fun p => if p.1 = key t then (p.1, p.2 ++ [t]) else p) q).1 =
              q.1 := by
          intro q
          by_cases hk : q.1 = key t <;> simp [hk]
        rw [List.any_map]
        have hsame : ∀ q ∈ acc,
            ((fun p => decide (p.1 = key x)) ∘
              (fun p => if p.1 = key t then (p.1, p.2 ++ [t]) else p)) q =
            decide (q.1 = key x) := by
          intro q hq
          simp only [Function.comp_apply, hfst q]
        rcases List.mem_append.mp hx with hx2 | hx2
        · have hh := h2 x hx2
          rw [List.any_eq_true] at hh ⊢
          obtain ⟨q, hq, hqe⟩ := hh
          exact ⟨q, hq, by rw [hsame q hq]; exact hqe⟩
        · simp only [List.mem_singleton] at hx2
          subst hx2
          rw [List.any_eq_true] at hhas ⊢
          obtain ⟨q, hq, hqe⟩ := hhas
          exact ⟨q, hq, by rw [hsame q hq]; exact hqe⟩
      · have hkeys : (acc.map
            (fun p => if p.1 = key t then (p.1, p.2 ++ [t]) else p)).map
            Prod.fst = acc.map Prod.fst := by
          rw [List.map_map]
          apply List.map_congr_left
          intro q hq
          by_cases hk : q.1 = key t <;> simp [hk]
        rw [hkeys]
        exact h3
      · intro p hp
        obtain ⟨q, hq, rfl⟩ := List.mem_map.mp hp
        obtain ⟨x, hx, hxe⟩ := h4 q hq
        refine ⟨x, List.mem_append_left _ hx, ?_⟩
        by_cases hk : q.1 = key t <;> simp [hk, hxe]
    · have hstep2 : groupStep key acc t = acc ++ [(key t, [t])] := by
        unfold groupStep
        rw [if_neg hhas]
      rw [hstep2]
      have hkeyt : ∀ q ∈ acc, q.1 ≠ key t := by
        intro q hq hcontra
        apply hhas
        rw [List.any_eq_true]
        exact ⟨q, hq, by simp [hcontra]⟩
      have hpret : ∀ x ∈ pre, key x ≠ key t := by
        intro x hx hcontra
        have hh := h2 x hx
        rw [List.any_eq_true] at hh
        obtain ⟨q, hq, hqe⟩ := hh
        simp only [decide_eq_true_eq] at hqe
        exact hkeyt q hq (by rw [hqe, hcontra])
      apply ih
      · intro p hp
        rcases List.mem_append.mp hp with hp2 | hp2
        · rw [filter_append_singleton, if_neg (fun h => hkeyt p hp2 h.symm)]
          rw [List.append_nil]
          exact h1 p hp2
        · simp only [List.mem_singleton] at hp2
          subst hp2
          rw [filter_append_singleton, if_pos rfl]
          have hnil : pre.filter (fun x => decide (key x = key t)) = [] := by
            rw [List.filter_eq_nil_iff]
            intro x hx
            simp only [decide_eq_true_eq]
            exact hpret x hx
          rw [hnil, List.nil_append]
      · intro x hx
        rcases List.mem_append.mp hx with hx2 | hx2
        · have hh := h2 x hx2
          rw [List.any_eq_true] at hh ⊢
          obtain ⟨q, hq, hqe⟩ := hh
          exact ⟨q, List.mem_append_left _ hq, hqe⟩
        · simp only [List.mem_singleton] at hx2
          subst hx2
          rw [List.any_eq_true]
          exact ⟨(key x, [x]),
            List.mem_append_right _ (List.mem_singleton_self _), by simp⟩
      · rw [List.map_append]
        simp only [List.map_cons, List.map_nil]
        rw [List.nodup_append]
        refine ⟨h3, List.nodup_singleton _, ?_⟩
        intro a ha hb
        simp only [List.mem_singleton] at hb
        subst hb
        obtain ⟨q, hq, hqe⟩ := List.mem_map.mp ha
        exact hkeyt q hq hqe
      · intro p hp
        rcases List.mem_append.mp hp with hp2 | hp2
        · obtain ⟨x, hx, hxe⟩ := h4 p hp2
          exact ⟨x, List.mem_append_left _ hx, hxe⟩
        · simp only [List.mem_singleton] at hp2
          subst hp2
          exact ⟨t, List.mem_append_right _ (List.mem_singleton_self _), rfl⟩

/-- Every group produced by `groupByKey` is exactly the filter of the
input by its key. -/
theorem groupByKey_eq_filter {α κ : Type} [DecidableEq κ] (key : α → κ)
    (xs : List α) :
    ∀ p ∈ groupByKey key xs, p.2 = xs.filter (fun x => key x = p.1) := by
  have h := (groupByKey_invariant key xs [] []
    (by simp) (by simp) (by simp) (by simp)).1
  intro p hp
  have h2 := h p (by simpa [groupByKey] using hp)
  simpa using h2

/-- The keys produced by `groupByKey` are distinct. -/
theorem groupByKey_keys_nodup {α κ : Type} [DecidableEq κ] (key : α → κ)
    (xs : List α) : ((groupByKey key xs).map Prod.fst).Nodup := by
  have h := (groupByKey_invariant key xs [] []
    (by simp) (by simp) (by simp) (by simp)).2.2.1
  simpa [groupByKey] using h

/-- A key occurs in `groupByKey` exactly when some input element has it. -/
theorem groupByKey_keys_mem {α κ : Type} [DecidableEq κ] (key : α → κ)
    (xs : List α) (d : κ) :
    d ∈ (groupByKey key xs).map Prod.fst ↔ ∃ x ∈ xs, key x = d := by
  constructor
  · intro hd
    obtain ⟨p, hp, rfl⟩ := List.mem_map.mp hd
    have h := (groupByKey_invariant key xs [] []
      (by simp) (by simp) (by simp) (by simp)).2.2.2
    have h2 := h p (by simpa [groupByKey] using hp)
    simpa using h2
  · intro hex
    obtain ⟨x, hx, hxd⟩ := hex
    have h := (groupByKey_invariant key xs [] []
      (by simp) (by simp) (by simp) (by simp)).2.1
    have h2 := h x (by simpa using hx)
    rw [List.any_eq_true] at h2
    obtain ⟨p, hp, hpe⟩ := h2
    simp only [decide_eq_true_eq] at hpe
    rw [List.mem_map]
    exact ⟨p, by simpa [groupByKey] using hp, by rw [hpe, hxd]⟩

/-- `getAdherenceLevel` only returns the five band names. -/
theorem adherenceLevel_mem_order (s : ℚ) :
    getAdherenceLevel s ∈ ADHERENCE_ORDER := by
  unfold getAdherenceLevel ADHERENCE_ORDER
  split_ifs <;> simp

/-! ### Claim theorems (adherence scorer) -/

/-- C1. For every checklist-adherence map `m`, `calculateAdherenceScore m`
lies in the interval `[0, 100]`, and the empty map scores exactly 0. -/
theorem claim_adherence_score_bounds :
    (∀ m : ChecklistAdherence,
      0 ≤ calculateAdherenceScore m ∧ calculateAdherenceScore m ≤ 100) ∧
    calculateAdherenceScore ([] : ChecklistAdherence) = 0 := by
  constructor
  · intro m
    unfold calculateAdherenceScore
    by_cases h : (m.map Prod.snd).length = 0
    · simp [h]
    · simp only [h, if_false]
      have hlen : (0 : ℚ) < ((m.map Prod.snd).length : ℚ) := by
        exact_mod_cast Nat.pos_of_ne_zero h
      have hle : ((m.map Prod.snd).filter (fun b => b)).length ≤
          (m.map Prod.snd).length := List.length_filter_le _ _
      constructor
      · positivity
      · have h1 : (((m.map Prod.snd).filter (fun b => b)).length : ℚ) /
            ((m.map Prod.snd).length : ℚ) ≤ 1 := by
          rw [div_le_one hlen]
          exact_mod_cast hle
        nlinarith
  · rfl

/-- C2. `getAdherenceLevel` bands scores exactly as specified: `Excellent`
iff `s ≥ 90`, `Good` iff `75 ≤ s < 90`, `Fair` iff `50 ≤ s < 75`, `Poor` iff
`25 ≤ s < 50`, and `Very Poor` iff `s < 25`; each boundary value (90, 75,
50, 25) belongs to the higher band, and the empty adherence map (score 0)
is banded `Very Poor`. -/
theorem claim_adherence_level_bands :
    (∀ s : ℚ,
      (getAdherenceLevel s = "Excellent" ↔ 90 ≤ s) ∧
      (getAdherenceLevel s = "Good" ↔ 75 ≤ s ∧ s < 90) ∧
      (getAdherenceLevel s = "Fair" ↔ 50 ≤ s ∧ s < 75) ∧
      (getAdherenceLevel s = "Poor" ↔ 25 ≤ s ∧ s < 50) ∧
      (getAdherenceLevel s = "Very Poor" ↔ s < 25)) ∧
    getAdherenceLevel 90 = "Excellent" ∧
    getAdherenceLevel 75 = "Good" ∧
    getAdherenceLevel 50 = "Fair" ∧
    getAdherenceLevel 25 = "Poor" ∧
    getAdherenceLevel (calculateAdherenceScore ([] : ChecklistAdherence)) =
      "Very Poor" := by
  refine ⟨?_, by norm_num [getAdherenceLevel], by norm_num [getAdherenceLevel],
    by norm_num [getAdherenceLevel], by norm_num [getAdherenceLevel],
    by norm_num [getAdherenceLevel, calculateAdherenceScore]⟩
  intro s
  unfold getAdherenceLevel
  split_ifs with h1 h2 h3 h4 <;>
    refine ⟨?_, ?_, ?_, ?_, ?_⟩ <;>
    constructor <;>
    intro h <;>
    first
      | rfl
      | linarith
      | (exact absurd h (by decide))
      | (exact absurd h1 (by push_neg at *; linarith))
      | (exact h.elim fun ha hb => absurd h1 (by push_neg at *; linarith))
      | (constructor <;> linarith)

/-! ### Claim theorems (trade-notes envelope parser) -/

/-- C3 (counterexample). The notes text `{"checklist":null}` parses as JSON
but is not an envelope containing a checklist map (its `checklist` property
is `null`), so by the claim the entire text should come back as plain user
notes; the code instead takes the envelope branch and returns an empty
checklist with empty user notes, losing the text. -/
theorem claim_parse_notes_counterexample :
    parseTradeNotes (some "\x7b\"checklist\":null\x7d")
        (some (Js.obj [("checklist", Js.null)])) =
      ⟨some (Js.obj []), Js.str ""⟩ ∧
    ¬ (parseTradeNotes (some "\x7b\"checklist\":null\x7d")
        (some (Js.obj [("checklist", Js.null)]))).userNotes =
      Js.str "\x7b\"checklist\":null\x7d" := by
  constructor
  · rfl
  · intro h
    have h2 : Js.str "" = Js.str "\x7b\"checklist\":null\x7d" := h
    simp only [Js.str.injEq] at h2
    exact absurd h2 (by decide)

/-- C3 (amended). `parseTradeNotes` returns the envelope's checklist and
userNotes whenever the notes text parses as a JSON object with a truthy
`checklist` property (the checklist defaults to the empty map when the
property is present but falsy, and a falsy/absent `userNotes` becomes the
empty string); only when the text is empty, invalid JSON, or parses to
something other than an object with a `checklist` property is the entire
text returned as plain user notes with no checklist. The function is total,
so no exception escapes. -/
theorem claim_parse_notes_amended :
    (∀ (s : String) (fields : List (String × Js)) (c : Js),
      s ≠ "" → jsLookup fields "checklist" = some c → jsTruthy c = true →
      parseTradeNotes (some s) (some (Js.obj fields)) =
        ⟨some c, jsOrDefault (jsLookup fields "userNotes") (Js.str "")⟩) ∧
    (∀ (s : String) (fields : List (String × Js)) (c : Js),
      s ≠ "" → jsLookup fields "checklist" = some c → jsTruthy c = false →
      parseTradeNotes (some s) (some (Js.obj fields)) =
        ⟨some (Js.obj []),
          jsOrDefault (jsLookup fields "userNotes") (Js.str "")⟩) ∧
    (∀ (s : String) (parsed : Option Js),
      s ≠ "" →
      (∀ fields, parsed = some (Js.obj fields) →
        jsLookup fields "checklist" = none) →
      parseTradeNotes (some s) parsed = ⟨none, Js.str s⟩) := by
  refine ⟨?_, ?_, ?_⟩
  · intro s fields c hs hc htru
    simp [parseTradeNotes, hs, hc, jsOrDefault, htru]
  · intro s fields c hs hc htru
    simp [parseTradeNotes, hs, hc, jsOrDefault, htru]
  · intro s parsed hs hshape
    match parsed with
    | none => simp [parseTradeNotes, hs]
    | some Js.null => simp [parseTradeNotes, hs]
    | some (Js.bool b) => simp [parseTradeNotes, hs]
    | some (Js.num q) => simp [parseTradeNotes, hs]
    | some (Js.str t) => simp [parseTradeNotes, hs]
    | some (Js.arr xs) => simp [parseTradeNotes, hs]
    | some (Js.obj fields) =>
      have hnone := hshape fields rfl
      simp [parseTradeNotes, hs, hnone]

/-- C3 (witness). The amended theorem applied to a genuine envelope and to
a plain-text note that is not valid JSON. -/
theorem claim_parse_notes_amended_witness :
    parseTradeNotes (some "x") (some (Js.obj
        [("checklist", Js.obj [("a", Js.bool true)]),
         ("userNotes", Js.str "hi")])) =
      ⟨some (Js.obj [("a", Js.bool true)]), Js.str "hi"⟩ ∧
    parseTradeNotes (some "plain text") none =
      ⟨none, Js.str "plain text"⟩ := by
  constructor
  · have h := claim_parse_notes_amended.1 "x"
      [("checklist", Js.obj [("a", Js.bool true)]),
       ("userNotes", Js.str "hi")]
      (Js.obj [("a", Js.bool true)]) (by decide) (by rfl) (by rfl)
    rw [h]
    rfl
  · exact claim_parse_notes_amended.2.2 "plain text" none (by decide)
      (fun fields h => by cases h)

/-! ### Claim theorems (weekly bucketing) -/

/-- C4. The grouping half of the claim holds: trades dated 2024-03-04 and
2024-03-08 share the bucket keyed 2024-03-03 (the most recent Sunday on or
before their dates) and a trade dated 2024-03-10 keys its own bucket. The
ordering half fails: the chart sorts buckets by the year-less display label
(`new Date("Dec 31")` parses in the default year 2001), so on the input of
two trades dated 2024-01-03 and 2024-01-10 the buckets come out
`[2024-01-07, 2023-12-31]` — not ascending by week-start date. Sorting by
the full week key is clearly the intent (the sibling daily chart sorts by
`fullDate`, and the `slice(-12)` comment says "Last 12 weeks"); comparing
the year-less labels is a slip, so the code, not the claim, is wrong. -/
theorem claim_weekly_bucketing_label_sort :
    weekStartOf (daysFromCivil 2024 3 4) = daysFromCivil 2024 3 3 ∧
    weekStartOf (daysFromCivil 2024 3 8) = daysFromCivil 2024 3 3 ∧
    weekStartOf (daysFromCivil 2024 3 10) = daysFromCivil 2024 3 10 ∧
    (weeklyData [⟨daysFromCivil 2024 3 4, 0, 0, 1⟩,
        ⟨daysFromCivil 2024 3 8, 0, 0, 1⟩]).map
      (fun b => (b.weekKey, b.trades)) = [(daysFromCivil 2024 3 3, 2)] ∧
    (weeklyData [⟨daysFromCivil 2024 3 4, 0, 0, 1⟩,
        ⟨daysFromCivil 2024 3 10, 0, 0, 1⟩]).map
      (fun b => (b.weekKey, b.trades)) =
      [(daysFromCivil 2024 3 3, 1), (daysFromCivil 2024 3 10, 1)] ∧
    (freqChartData [⟨daysFromCivil 2024 1 3, 0, 0, 1⟩,
        ⟨daysFromCivil 2024 1 10, 0, 0, 1⟩]).map WeekBucket.weekKey =
      [daysFromCivil 2024 1 7, daysFromCivil 2023 12 31] ∧
    ¬ ((freqChartData [⟨daysFromCivil 2024 1 3, 0, 0, 1⟩,
        ⟨daysFromCivil 2024 1 10, 0, 0, 1⟩]).map WeekBucket.weekKey).Pairwise
      (· ≤ ·) := by
  have e1 : daysFromCivil 2024 1 3 = 19725 := by decide
  have e2 : daysFromCivil 2024 1 10 = 19732 := by decide
  have e3 : daysFromCivil 2024 1 7 = 19729 := by decide
  have e4 : daysFromCivil 2023 12 31 = 19722 := by decide
  have l1 : weekLabel 19722 = (12, 31) := by decide
  have l2 : weekLabel 19729 = (1, 7) := by decide
  have g : weeklyData [⟨19725, 0, 0, 1⟩, ⟨19732, 0, 0, 1⟩] =
      [⟨19722, (12, 31), 1, 0, 0, 0⟩, ⟨19729, (1, 7), 1, 0, 0, 0⟩] := by
    simp [weeklyData, groupByKey, groupStep, weekStartOf, dayOfWeek, emptyBucket,
      addTradeToBucket, l1, l2]
  have hchart : (freqChartData [⟨19725, 0, 0, 1⟩, ⟨19732, 0, 0, 1⟩]).map
      WeekBucket.weekKey = [19729, 19722] := by
    simp [freqChartData, g, List.mergeSort, weekLabelLe]
  refine ⟨by decide, by decide, by decide, ?_, ?_, ?_, ?_⟩
  · have e5 : daysFromCivil 2024 3 4 = 19786 := by decide
    have e6 : daysFromCivil 2024 3 8 = 19790 := by decide
    have e7 : daysFromCivil 2024 3 3 = 19785 := by decide
    rw [e5, e6, e7]
    have l3 : weekLabel 19785 = (3, 3) := by decide
    simp [weeklyData, groupByKey, groupStep, weekStartOf, dayOfWeek, emptyBucket,
      addTradeToBucket, l3]
  · have e5 : daysFromCivil 2024 3 4 = 19786 := by decide
    have e8 : daysFromCivil 2024 3 10 = 19792 := by decide
    have e7 : daysFromCivil 2024 3 3 = 19785 := by decide
    rw [e5, e8, e7]
    have l3 : weekLabel 19785 = (3, 3) := by decide
    have l4 : weekLabel 19792 = (3, 10) := by decide
    simp [weeklyData, groupByKey, groupStep, weekStartOf, dayOfWeek, emptyBucket,
      addTradeToBucket, l3, l4]
  · rw [e1, e2, e3, e4]
    exact hchart
  · rw [e1, e2]
    rw [hchart]
    decide

/-! ### Claim theorems (cohort correlator, risk-reward, empty cohorts) -/

/-- C5. The per-item analysis splits trades into the cohort with
`checklist[item.id] === true` and the cohort with `=== false`; a trade
whose map lacks the key joins neither cohort; `impact` is the difference
of the guarded cohort averages (170 on the spec's worked example); rows
with zero trades in both cohorts are excluded; and the top-impact ranking
is pairwise ordered by `|impact|` descending. -/
theorem claim_item_impact_analysis :
    (∀ (trades : List TradeC) (item : ChecklistItem),
      (itemImpactOf trades item).followedTrades =
        (trades.filter (fun t =>
          adherenceLookup t.checklist item.id = some true)).length ∧
      (itemImpactOf trades item).notFollowedTrades =
        (trades.filter (fun t =>
          adherenceLookup t.checklist item.id = some false)).length ∧
      (itemImpactOf trades item).impact =
        avgPnL (trades.filter (fun t =>
          adherenceLookup t.checklist item.id = some true)) -
        avgPnL (trades.filter (fun t =>
          adherenceLookup t.checklist item.id = some false))) ∧
    (∀ (trades : List TradeC) (t : TradeC) (item : ChecklistItem),
      adherenceLookup t.checklist item.id = none →
      itemImpactOf (t :: trades) item = itemImpactOf trades item) ∧
    (itemImpactOf
      [⟨[("X", true)], 100⟩, ⟨[("X", true)], 200⟩,
       ⟨[("X", false)], -50⟩, ⟨[("X", false)], 10⟩]
      ⟨"X", "Entry rule", "pre-trade", none⟩).impact = 170 ∧
    (∀ (items : List ChecklistItem) (trades : List TradeC)
        (r : ItemImpact), r ∈ itemAnalysis items trades →
      r.followedTrades > 0 ∨ r.notFollowedTrades > 0) ∧
    (∀ (items : List ChecklistItem) (trades : List TradeC)
        (item : ChecklistItem),
      (itemImpactOf trades item).followedTrades = 0 →
      (itemImpactOf trades item).notFollowedTrades = 0 →
      itemImpactOf trades item ∉ itemAnalysis items trades) ∧
    (∀ (items : List ChecklistItem) (trades : List TradeC),
      (topImpactItems items trades).Pairwise
        (fun a b => |b.impact| ≤ |a.impact|)) := by
  refine ⟨?_, ?_, ?_, ?_, ?_, ?_⟩
  · intro trades item
    exact ⟨rfl, rfl, rfl⟩
  · intro trades t item h
    simp [itemImpactOf, List.filter_cons, h]
  · norm_num [itemImpactOf, avgPnL, calculateTotalPnL, adherenceLookup,
      List.find?, List.filter]
  · intro items trades r hr
    have h2 := (List.mem_filter.mp hr).2
    simp only [Bool.or_eq_true, decide_eq_true_eq] at h2
    exact h2
  · intro items trades item h0 h1 hmem
    have h2 := (List.mem_filter.mp hmem).2
    simp [h0, h1] at h2
  · intro items trades
    have htrans : ∀ a b c : ItemImpact,
        decide (|b.impact| ≤ |a.impact|) →
        decide (|c.impact| ≤ |b.impact|) →
        decide (|c.impact| ≤ |a.impact|) := by
      intro a b c h1 h2
      simp only [decide_eq_true_eq] at *
      exact le_trans h2 h1
    have htotal : ∀ a b : ItemImpact,
        decide (|b.impact| ≤ |a.impact|) ||
        decide (|a.impact| ≤ |b.impact|) := by
      intro a b
      simp only [Bool.or_eq_true, decide_eq_true_eq]
      exact le_total _ _
    have hs := List.sorted_mergeSort htrans htotal
      (itemAnalysis items trades)
    have hp : ((itemAnalysis items trades).mergeSort
        (fun a b => decide (|b.impact| ≤ |a.impact|))).Pairwise
        (fun a b => |b.impact| ≤ |a.impact|) := by
      refine hs.imp ?_
      intro a b h
      exact decide_eq_true_eq.mp h
    exact hp.sublist (List.take_sublist 5 _)

/-- C5 (witness). The cohort-splitting and exclusion clauses applied to a
concrete analysis: the spec's worked example, where the one configured
item has impact 170 and a key-less trade changes nothing. -/
theorem claim_item_impact_analysis_witness :
    itemImpactOf
        (⟨[], 999⟩ :: [⟨[("X", true)], 100⟩, ⟨[("X", true)], 200⟩,
          ⟨[("X", false)], -50⟩, ⟨[("X", false)], 10⟩])
        ⟨"X", "Entry rule", "pre-trade", none⟩ =
      itemImpactOf
        [⟨[("X", true)], 100⟩, ⟨[("X", true)], 200⟩,
         ⟨[("X", false)], -50⟩, ⟨[("X", false)], 10⟩]
        ⟨"X", "Entry rule", "pre-trade", none⟩ ∧
    itemImpactOf ([] : List TradeC) ⟨"X", "Entry rule", "pre-trade", none⟩ ∉
      itemAnalysis [⟨"X", "Entry rule", "pre-trade", none⟩]
        ([] : List TradeC) := by
  constructor
  · exact claim_item_impact_analysis.2.1 _ ⟨[], 999⟩
      ⟨"X", "Entry rule", "pre-trade", none⟩ (by decide)
  · exact claim_item_impact_analysis.2.2.2.2.1 _ _
      ⟨"X", "Entry rule", "pre-trade", none⟩ (by decide) (by decide)

/-- C6. For a trade with entry, exit and stop-loss all present the chart
yields `risk = |entry - stop|`, `reward = |exit - entry|` and `ratio =
reward / risk` when `risk > 0`, else 0 (the worked example 100/95/110
gives 5, 10, 2); a trade missing any of the three inputs contributes
nothing to the result set. -/
theorem claim_risk_reward_calculator :
    (∀ (trades : List RRTrade) (t : RRTrade) (e x s : ℚ),
      t ∈ trades → t.entryPrice = some e → t.exitPrice = some x →
      t.stopLoss = some s →
      (⟨|e - s|, |x - e|,
        if |e - s| > 0 then |x - e| / |e - s| else 0, t.pnl⟩ : RRPoint) ∈
        riskRewardData trades) ∧
    (∀ (trades : List RRTrade) (t : RRTrade),
      t.entryPrice = none ∨ t.exitPrice = none ∨ t.stopLoss = none →
      riskRewardData (t :: trades) = riskRewardData trades) ∧
    (∀ (trades : List RRTrade) (p : RRPoint), p ∈ riskRewardData trades →
      (p.risk > 0 → p.ratio = p.reward / p.risk) ∧
      (p.risk = 0 → p.ratio = 0)) ∧
    riskRewardData [⟨some 100, some 110, some 95, 7⟩] =
      [⟨5, 10, 2, 7⟩] := by
  refine ⟨?_, ?_, ?_, ?_⟩
  · intro trades t e x s ht he hx hs
    unfold riskRewardData
    refine List.mem_map.mpr ⟨t, List.mem_filter.mpr ⟨ht, ?_⟩, ?_⟩
    · simp [he, hx, hs]
    · simp [he, hx, hs]
  · intro trades t h
    rcases h with h | h | h <;> simp [riskRewardData, List.filter_cons, h]
  · intro trades p hp
    unfold riskRewardData at hp
    obtain ⟨t, _, rfl⟩ := List.mem_map.mp hp
    constructor
    · intro h0
      simp only at h0 ⊢
      rw [if_pos h0]
    · intro h0
      simp only at h0 ⊢
      rw [if_neg (by rw [h0]; exact lt_irrefl 0)]
  · norm_num [riskRewardData, List.filter]

/-- C6 (witness). The calculator applied to the worked example trade in a
two-trade list whose other trade is missing its stop loss. -/
theorem claim_risk_reward_calculator_witness :
    (⟨5, 10, 2, 7⟩ : RRPoint) ∈
      riskRewardData [⟨some 100, some 110, some 95, 7⟩,
        ⟨some 1, some 2, none, 3⟩] ∧
    riskRewardData [⟨some 1, some 2, none, 3⟩] = [] := by
  constructor
  · have h := claim_risk_reward_calculator.1
      [⟨some 100, some 110, some 95, 7⟩, ⟨some 1, some 2, none, 3⟩]
      ⟨some 100, some 110, some 95, 7⟩ 100 110 95
      (by simp) rfl rfl rfl
    have he : (⟨|(100 : ℚ) - 95|, |(110 : ℚ) - 100|,
        if |(100 : ℚ) - 95| > 0 then |(110 : ℚ) - 100| / |(100 : ℚ) - 95|
        else 0, 7⟩ : RRPoint) = ⟨5, 10, 2, 7⟩ := by
      norm_num
    rwa [he] at h
  · exact claim_risk_reward_calculator.2.1 [] ⟨some 1, some 2, none, 3⟩
      (Or.inr (Or.inr rfl))

/-- C7. Every guarded metric is 0 on an empty cohort: the division by the
count is intercepted by the `length > 0` check (in the rational embedding
there is no NaN to propagate, and every function is total). -/
theorem claim_empty_cohort_zero :
    winRate ([] : List TradeC) = 0 ∧ avgPnL ([] : List TradeC) = 0 ∧
    avgRiskReward ([] : List RRPoint) = 0 ∧
    (∀ cohort : List TradeC, cohort.length = 0 →
      winRate cohort = 0 ∧ avgPnL cohort = 0) ∧
    (∀ pts : List RRPoint, pts.length = 0 → avgRiskReward pts = 0) := by
  refine ⟨rfl, rfl, rfl, ?_, ?_⟩
  · intro cohort h
    rw [List.length_eq_zero.mp h]
    exact ⟨rfl, rfl⟩
  · intro pts h
    rw [List.length_eq_zero.mp h]
    rfl

/-- C7 (witness). The universally quantified clauses applied to the empty
cohort itself. -/
theorem claim_empty_cohort_zero_witness :
    (winRate ([] : List TradeC) = 0 ∧ avgPnL ([] : List TradeC) = 0) ∧
    avgRiskReward ([] : List RRPoint) = 0 :=
  ⟨claim_empty_cohort_zero.2.2.2.1 [] rfl,
   claim_empty_cohort_zero.2.2.2.2 [] rfl⟩

/-! ### Claim theorems (mood scorer) -/

/-- C8. The emotion table maps Confident to 5, Excited and Disciplined to
4, Neutral to 3, Anxious to 2, Fearful and Greedy to 1; an absent or
unrecognized label scores 3 (the functions are total, so nothing throws);
every day in the chart carries the arithmetic mean of that day's per-trade
scores; and `getMoodLabel` bands scores at 4.5/3.5/2.5/1.5 with the
boundary in the higher band. -/
theorem claim_mood_scorer :
    emotionScore (some "Confident") = 5 ∧
    emotionScore (some "Excited") = 4 ∧
    emotionScore (some "Disciplined") = 4 ∧
    emotionScore (some "Neutral") = 3 ∧
    emotionScore (some "Anxious") = 2 ∧
    emotionScore (some "Fearful") = 1 ∧
    emotionScore (some "Greedy") = 1 ∧
    emotionScore none = 3 ∧
    (∀ e : String, e ∉ EMOTION_SCORES.map Prod.fst →
      emotionScore (some e) = 3) ∧
    (∀ (trades : List MoodTrade) (day : MoodDay),
      day ∈ moodChartData trades →
      day.moodScore =
        ((trades.filter (fun t => t.tradeDate = day.fullDate)).map
          (fun t => emotionScore t.emotion)).sum /
        (((trades.filter
          (fun t => t.tradeDate = day.fullDate)).length : ℚ))) ∧
    (∀ s : ℚ,
      (getMoodLabel s = "Very Positive" ↔ 4.5 ≤ s) ∧
      (getMoodLabel s = "Positive" ↔ 3.5 ≤ s ∧ s < 4.5) ∧
      (getMoodLabel s = "Neutral" ↔ 2.5 ≤ s ∧ s < 3.5) ∧
      (getMoodLabel s = "Negative" ↔ 1.5 ≤ s ∧ s < 2.5) ∧
      (getMoodLabel s = "Very Negative" ↔ s < 1.5)) := by
  refine ⟨by decide, by decide, by decide, by decide, by decide, by decide,
    by decide, by decide, ?_, ?_, ?_⟩
  · intro e he
    by_cases h0 : e = ""
    · subst h0
      decide
    · unfold emotionScore
      simp only [h0, if_false]
      have hf : EMOTION_SCORES.find? (fun p => p.1 = e) = none := by
        rw [List.find?_eq_none]
        intro x hx
        simp only [decide_eq_true_eq]
        intro hxe
        exact he (hxe ▸ List.mem_map_of_mem Prod.fst hx)
      rw [hf]
      rfl
  · intro trades day hday
    unfold moodChartData at hday
    simp only at hday
    have h1 := List.mem_of_mem_drop hday
    rw [List.mem_mergeSort] at h1
    obtain ⟨p, hp, rfl⟩ := List.mem_map.mp h1
    have h2 := groupByKey_eq_filter (fun t => t.tradeDate) trades p hp
    simp only
    rw [h2]
  · intro s
    unfold getMoodLabel
    split_ifs with h1 h2 h3 h4 <;>
      refine ⟨?_, ?_, ?_, ?_, ?_⟩ <;>
      constructor <;>
      intro h <;>
      first
        | rfl
        | linarith
        | (exact absurd h (by decide))
        | (exact absurd h1 (by push_neg at *; linarith))
        | (exact h.elim fun ha hb => absurd h1 (by push_neg at *; linarith))
        | (constructor <;> linarith)

/-- C8 (witness). The fallback clause applied to the unknown label "Zen"
and the daily-mean clause applied to a concrete two-trade day (scores 5
and 1, mean 3). -/
theorem claim_mood_scorer_witness :
    emotionScore (some "Zen") = 3 ∧
    (⟨7, 3, 3, 2, "Neutral"⟩ : MoodDay).moodScore =
      ((([⟨7, some "Confident", 1⟩, ⟨7, some "Fearful", 2⟩] :
          List MoodTrade).filter
          (fun t => t.tradeDate =
            (⟨7, 3, 3, 2, "Neutral"⟩ : MoodDay).fullDate)).map
        (fun t => emotionScore t.emotion)).sum /
      (((([⟨7, some "Confident", 1⟩, ⟨7, some "Fearful", 2⟩] :
          List MoodTrade).filter
          (fun t => t.tradeDate =
            (⟨7, 3, 3, 2, "Neutral"⟩ : MoodDay).fullDate)).length : ℚ)) := by
  constructor
  · exact claim_mood_scorer.2.2.2.2.2.2.2.2.1 "Zen" (by decide)
  · apply claim_mood_scorer.2.2.2.2.2.2.2.2.2.1
      [⟨7, some "Confident", 1⟩, ⟨7, some "Fearful", 2⟩]
    have heval : moodChartData
        [⟨7, some "Confident", 1⟩, ⟨7, some "Fearful", 2⟩] =
        [⟨7, 3, 3, 2, "Neutral"⟩] := by
      have h1 : emotionScore (some "Confident") = 5 := by decide
      have h2 : emotionScore (some "Fearful") = 1 := by decide
      simp [moodChartData, groupByKey, groupStep, h1, h2, List.mergeSort]
      norm_num [getMoodLabel]
    rw [heval]
    exact List.mem_singleton_self _

/-! ### Claim theorems (adherence-band ordering) -/

/-- C9. For every input list of trades the cohort chart lists exactly its
non-empty adherence bands, in the fixed order Excellent, Good, Fair, Poor,
Very Poor given by the explicit rank table; and the listed band sequence is
the same for every permutation of the input. -/
theorem claim_adherence_band_order :
    (∀ trades : List TradeC,
      (adherenceData trades).map AdherenceBand.level =
        ADHERENCE_ORDER.filter
          (fun l => trades.any (fun t => tradeAdherenceLevel t = l))) ∧
    (∀ trades trades2 : List TradeC, trades.Perm trades2 →
      (adherenceData trades).map AdherenceBand.level =
        (adherenceData trades2).map AdherenceBand.level) := by
  have main : ∀ trades : List TradeC,
      (adherenceData trades).map AdherenceBand.level =
        ADHERENCE_ORDER.filter
          (fun l => trades.any (fun t => tradeAdherenceLevel t = l)) := by
    intro trades
    have htrans : ∀ a b c : AdherenceBand,
        decide (getAdherenceSortOrder a.level ≤ getAdherenceSortOrder b.level) →
        decide (getAdherenceSortOrder b.level ≤ getAdherenceSortOrder c.level) →
        decide (getAdherenceSortOrder a.level ≤ getAdherenceSortOrder c.level) := by
      intro a b c h1 h2
      simp only [decide_eq_true_eq] at *
      exact le_trans h1 h2
    have htotal : ∀ a b : AdherenceBand,
        decide (getAdherenceSortOrder a.level ≤ getAdherenceSortOrder b.level) ||
        decide (getAdherenceSortOrder b.level ≤ getAdherenceSortOrder a.level) := by
      intro a b
      simp only [Bool.or_eq_true, decide_eq_true_eq]
      exact le_total _ _
    have hBlevel : ((groupByKey tradeAdherenceLevel trades).map bandOf).map
        AdherenceBand.level =
        (groupByKey tradeAdherenceLevel trades).map Prod.fst := by
      rw [List.map_map]
      rfl
    have hperm : (adherenceData trades).Perm
        ((groupByKey tradeAdherenceLevel trades).map bandOf) :=
      List.mergeSort_perm _ _
    have hlevelperm : ((adherenceData trades).map AdherenceBand.level).Perm
        ((groupByKey tradeAdherenceLevel trades).map Prod.fst) := by
      have h := hperm.map AdherenceBand.level
      rwa [hBlevel] at h
    have hsorted : (adherenceData trades).Pairwise
        (fun a b => getAdherenceSortOrder a.level ≤
          getAdherenceSortOrder b.level) := by
      have hs := List.sorted_mergeSort htrans htotal
        ((groupByKey tradeAdherenceLevel trades).map bandOf)
      exact hs.imp (fun h => decide_eq_true_eq.mp h)
    have hsortedlevels :
        ((adherenceData trades).map AdherenceBand.level).Pairwise
          (fun a b => getAdherenceSortOrder a ≤ getAdherenceSortOrder b) :=
      List.pairwise_map.mpr hsorted
    have hnodupL : ((adherenceData trades).map AdherenceBand.level).Nodup :=
      hlevelperm.nodup_iff.mpr (groupByKey_keys_nodup _ _)
    have hmemrange : ∀ l ∈ (adherenceData trades).map AdherenceBand.level,
        l ∈ ADHERENCE_ORDER := by
      intro l hl
      have hm := hlevelperm.mem_iff.mp hl
      obtain ⟨t, ht, hte⟩ := (groupByKey_keys_mem _ trades l).mp hm
      rw [← hte]
      exact adherenceLevel_mem_order _
    have hinj : ∀ a ∈ ADHERENCE_ORDER, ∀ b ∈ ADHERENCE_ORDER,
        getAdherenceSortOrder a = getAdherenceSortOrder b → a = b := by
      decide
    have hstrict : ((adherenceData trades).map AdherenceBand.level).Pairwise
        (fun a b => getAdherenceSortOrder a < getAdherenceSortOrder b) := by
      have hcomb := List.Pairwise.and hsortedlevels hnodupL
      refine hcomb.imp_of_mem ?_
      intro a b ha hb hab
      exact lt_of_le_of_ne hab.1
        (fun he => hab.2 (hinj a (hmemrange a ha) b (hmemrange b hb) he))
    have hRnodup : (ADHERENCE_ORDER.filter
        (fun l => trades.any (fun t => tradeAdherenceLevel t = l))).Nodup :=
      List.Nodup.filter _ (by decide)
    have hRsorted : (ADHERENCE_ORDER.filter
        (fun l => trades.any (fun t => tradeAdherenceLevel t = l))).Pairwise
        (fun a b => getAdherenceSortOrder a < getAdherenceSortOrder b) :=
      List.Pairwise.filter _ (by decide)
    have hmemiff : ∀ l, l ∈ (adherenceData trades).map AdherenceBand.level ↔
        l ∈ ADHERENCE_ORDER.filter
          (fun l => trades.any (fun t => tradeAdherenceLevel t = l)) := by
      intro l
      rw [List.mem_filter]
      constructor
      · intro hl
        refine ⟨hmemrange l hl, ?_⟩
        have hm := hlevelperm.mem_iff.mp hl
        obtain ⟨t, ht, hte⟩ := (groupByKey_keys_mem _ trades l).mp hm
        rw [List.any_eq_true]
        exact ⟨t, ht, by simp [hte]⟩
      · intro hl
        rw [List.any_eq_true] at hl
        obtain ⟨t, ht, hte⟩ := hl.2
        simp only [decide_eq_true_eq] at hte
        apply hlevelperm.mem_iff.mpr
        exact (groupByKey_keys_mem _ _ _).mpr ⟨t, ht, hte⟩
    have hpermLR : ((adherenceData trades).map AdherenceBand.level).Perm
        (ADHERENCE_ORDER.filter
          (fun l => trades.any (fun t => tradeAdherenceLevel t = l))) :=
      (List.perm_ext_iff_of_nodup hnodupL hRnodup).mpr hmemiff
    haveI : IsAntisymm String
        (fun a b => getAdherenceSortOrder a < getAdherenceSortOrder b) :=
      ⟨fun a b h1 h2 => absurd h2 (not_lt.mpr (le_of_lt h1))⟩
    exact List.eq_of_perm_of_sorted hpermLR hstrict hRsorted
  refine ⟨main, ?_⟩
  intro trades trades2 hp
  rw [main trades, main trades2]
  apply List.filter_congr
  intro l hl
  rw [Bool.eq_iff_iff, List.any_eq_true, List.any_eq_true]
  constructor
  · intro h
    obtain ⟨t, ht, hte⟩ := h
    exact ⟨t, hp.mem_iff.mp ht, hte⟩
  · intro h
    obtain ⟨t, ht, hte⟩ := h
    exact ⟨t, hp.mem_iff.mpr ht, hte⟩

/-- C9 (witness). The permutation clause applied to a concrete two-trade
list (levels Very Poor and Excellent) and its swap. -/
theorem claim_adherence_band_order_witness :
    (adherenceData [⟨[("a", false)], 0⟩, ⟨[("a", true)], 5⟩]).map
      AdherenceBand.level =
    (adherenceData [⟨[("a", true)], 5⟩, ⟨[("a", false)], 0⟩]).map
      AdherenceBand.level :=
  claim_adherence_band_order.2
    [⟨[("a", false)], 0⟩, ⟨[("a", true)], 5⟩]
    [⟨[("a", true)], 5⟩, ⟨[("a", false)], 0⟩]
    (List.Perm.swap (⟨[("a", true)], 5⟩ : TradeC)
      (⟨[("a", false)], 0⟩ : TradeC) [])

/-! ### Claim theorems (score independence from definitions) -/

/-- C10. `calculateAdherenceScore` reads only the trade's own stored map:
renaming every item id (in particular making ids dangle) leaves the score
unchanged, the score is a function of the stored boolean values alone (so
dangling ids count in the followed tally and the denominator exactly like
recognized ids), and deleting or patching a checklist-item definition
never changes any trade's score. -/
theorem claim_score_ignores_definitions :
    (∀ (f : String → String) (m : ChecklistAdherence),
      calculateAdherenceScore (m.map (fun p => (f p.1, p.2))) =
        calculateAdherenceScore m) ∧
    (∀ m1 m2 : ChecklistAdherence, m1.map Prod.snd = m2.map Prod.snd →
      calculateAdherenceScore m1 = calculateAdherenceScore m2) ∧
    (∀ (items : List ChecklistItem) (id : String)
        (m : ChecklistAdherence),
      scoreWithConfig (deleteChecklistItem items id) m =
        scoreWithConfig items m) ∧
    (∀ (items : List ChecklistItem) (id : String)
        (p : ChecklistItemPatch) (m : ChecklistAdherence),
      scoreWithConfig (updateChecklistItem items id p) m =
        scoreWithConfig items m) := by
  have values : ∀ m1 m2 : ChecklistAdherence,
      m1.map Prod.snd = m2.map Prod.snd →
      calculateAdherenceScore m1 = calculateAdherenceScore m2 := by
    intro m1 m2 h
    unfold calculateAdherenceScore
    rw [h]
  refine ⟨?_, values, ?_, ?_⟩
  · intro f m
    apply values
    rw [List.map_map]
    exact List.map_congr_left (fun a ha => rfl)
  · intro items id m
    rfl
  · intro items id p m
    rfl

/-- C10 (witness). The values-only clause applied to two maps whose ids
differ (one with ids matching no current definition) but whose stored
booleans agree. -/
theorem claim_score_ignores_definitions_witness :
    calculateAdherenceScore
        [("market-trend", true), ("volume-confirmation", false)] =
      calculateAdherenceScore [("deleted-1", true), ("deleted-2", false)] :=
  claim_score_ignores_definitions.2.1
    [("market-trend", true), ("volume-confirmation", false)]
    [("deleted-1", true), ("deleted-2", false)] rfl

end TradingDashboard
